import Mathlib

/-!
Verification of the arangodb-mcp-server core (src/index.ts).

JavaScript strings are modelled as `List Char`; the string operations the
program uses (`startsWith`, `slice` + `split`, template concatenation) are
embedded as list functions with the same semantics.  JavaScript object
identity is modelled by a `ref : Nat` allocation counter: two handles are
the same instance exactly when their `ref`s agree.
-/

namespace ArangoMCP

/-- Model of `s.startsWith(pat)` on JavaScript strings: `listStartsWith s pat`
is `true` iff `pat` is an initial segment of `s`. -/
def listStartsWith : List Char → List Char → Bool
  | _, [] => true
  | [], _ :: _ => false
  | c :: cs, p :: ps => p == c && listStartsWith cs ps

/-- Model of `s.split(sep)` for a one-character separator, with JavaScript
semantics: the result always has one more element than the number of
separators, so the empty string splits to `[""]`, `"a/"` to `["a", ""]`,
and `"/b"` to `["", "b"]`. -/
def splitOnChar (sep : Char) : List Char → List (List Char)
  | [] => [[]]
  | c :: cs =>
    if c = sep then
      [] :: splitOnChar sep cs
    else
      match splitOnChar sep cs with
      | [] => [[c]]
      | r :: rs => (c :: r) :: rs

/-- Joining with a one-character separator, the inverse of `splitOnChar`
(and the model of the `${a}/${b}` template concatenations in the source). -/
def joinWithSep (sep : Char) : List (List Char) → List Char
  | [] => []
  | [x] => x
  | x :: y :: xs => x ++ sep :: joinWithSep sep (y :: xs)

theorem listStartsWith_append (p t : List Char) : listStartsWith (p ++ t) p = true := by
  induction p with
  | nil => cases t <;> rfl
  | cons c cs ih => simp [listStartsWith, ih]

theorem listStartsWith_decompose (s p : List Char) (h : listStartsWith s p = true) :
    s = p ++ s.drop p.length := by
  induction p generalizing s with
  | nil => simp
  | cons c cs ih =>
    cases s with
    | nil => simp [listStartsWith] at h
    | cons a as =>
      simp only [listStartsWith, Bool.and_eq_true, beq_iff_eq] at h
      obtain ⟨rfl, h2⟩ := h
      simpa using ih as h2

theorem splitOnChar_ne_nil (sep : Char) (l : List Char) : splitOnChar sep l ≠ [] := by
  cases l with
  | nil => simp [splitOnChar]
  | cons c cs =>
    simp only [splitOnChar]
    split
    · simp
    · split
      · simp
      · simp

theorem splitOnChar_of_not_mem (sep : Char) (l : List Char) (h : sep ∉ l) :
    splitOnChar sep l = [l] := by
  induction l with
  | nil => rfl
  | cons c cs ih =>
    simp only [List.mem_cons, not_or] at h
    simp [splitOnChar, Ne.symm h.1, ih h.2]

theorem splitOnChar_append (sep : Char) (a rest : List Char) (h : sep ∉ a) :
    splitOnChar sep (a ++ sep :: rest) = a :: splitOnChar sep rest := by
  induction a with
  | nil => simp [splitOnChar]
  | cons c cs ih =>
    simp only [List.mem_cons, not_or] at h
    rw [List.cons_append, splitOnChar, if_neg (Ne.symm h.1), ih h.2]

theorem joinWithSep_splitOnChar (sep : Char) (l : List Char) :
    joinWithSep sep (splitOnChar sep l) = l := by
  induction l with
  | nil => rfl
  | cons c cs ih =>
    simp only [splitOnChar]
    obtain ⟨r, rs, hr⟩ : ∃ r rs, splitOnChar sep cs = r :: rs := by
      cases h : splitOnChar sep cs with
      | nil => exact absurd h (splitOnChar_ne_nil sep cs)
      | cons r rs => exact ⟨r, rs, rfl⟩
    rw [hr] at ih
    by_cases hc : c = sep
    · rw [if_pos hc, hr]
      cases rs with
      | nil => simp [joinWithSep, hc] at ih ⊢; simp [ih]
      | cons r2 rs2 => simp [joinWithSep, hc] at ih ⊢; simp [ih]
    · rw [if_neg hc, hr]
      cases rs with
      | nil => simp [joinWithSep] at ih ⊢; simp [ih]
      | cons r2 rs2 => simp [joinWithSep] at ih ⊢; simp [ih]

deriving instance DecidableEq for Except

/-- The tagged union `ArangoDBURI` of src/index.ts: a collection address
`{type: "collection", databaseName, collectionName}` or a document address
`{type: "document", databaseName, collectionName, documentId}`. -/
inductive ArangoDBURI where
  | collection (databaseName collectionName : List Char)
  | document (databaseName collectionName documentId : List Char)
deriving DecidableEq

/-- The fixed literal scheme the parser strips: `"arangodb:///"`. -/
def uriScheme : List Char := "arangodb:///".data

/-- Embedding of `parseArangoDBURI` (src/index.ts lines 183-228).  The source
checks the prefix, slices it off, splits the remainder on `/`, rejects a
component count other than 2 or 3, then rejects empty database name,
collection name and (in the 3-component case) document id, in that order;
errors carry the source's exact messages (`throw new InvalidArangoDBURIError`
is embedded as `Except.error`).  The component-count check is realised by the
match: the two explicit cases are exactly the counts 2 and 3, and the
fallthrough case returns the count error, which the source raises before any
emptiness check. -/
def parseArangoDBURI (uri : List Char) : Except String ArangoDBURI :=
  if listStartsWith uri uriScheme = false then
    .error "URI must start with \x22arangodb:///\x22"
  else
    let path := uri.drop uriScheme.length
    let components := splitOnChar '/' path
    match components with
    | [databaseName, collectionName] =>
      if databaseName = [] then
        .error "Database name cannot be empty"
      else if collectionName = [] then
        .error "Collection name cannot be empty"
      else
        .ok (.collection databaseName collectionName)
    | [databaseName, collectionName, documentId] =>
      if databaseName = [] then
        .error "Database name cannot be empty"
      else if collectionName = [] then
        .error "Collection name cannot be empty"
      else if documentId = [] then
        .error "Document ID cannot be empty"
      else
        .ok (.document databaseName collectionName documentId)
    | _ =>
      .error "URI must have 2 or 3 components: databaseName/collectionName[/documentId]"

/-- Building a URI string from an address by concatenation with `/`, as done
by the template literal in the collection-listing callback (src/index.ts line
254) and described by the spec as the inverse of parsing. -/
def buildArangoDBURI : ArangoDBURI → List Char
  | .collection databaseName collectionName =>
      uriScheme ++ databaseName ++ '/' :: collectionName
  | .document databaseName collectionName documentId =>
      uriScheme ++ databaseName ++ '/' :: collectionName ++ '/' :: documentId

example : parseArangoDBURI "arangodb:///mydb/users".data =
    .ok (.collection "mydb".data "users".data) := rfl
example : parseArangoDBURI "arangodb:///mydb/users/k1".data =
    .ok (.document "mydb".data "users".data "k1".data) := rfl
example : parseArangoDBURI "arangodb:///onlyone".data =
    .error "URI must have 2 or 3 components: databaseName/collectionName[/documentId]" := rfl
example : parseArangoDBURI "arangodb:///a/b/c/d".data =
    .error "URI must have 2 or 3 components: databaseName/collectionName[/documentId]" := rfl
example : parseArangoDBURI "foo:///a/b".data =
    .error "URI must start with \x22arangodb:///\x22" := rfl
example : parseArangoDBURI "arangodb:////b".data =
    .error "Database name cannot be empty" := rfl
example : parseArangoDBURI "arangodb:///a/".data =
    .error "Collection name cannot be empty" := rfl
example : parseArangoDBURI "arangodb:///a/b/".data =
    .error "Document ID cannot be empty" := rfl

/-- Second definition for the rejection claim, following the specification's
words rather than the code: the parse fails exactly when the input lacks the
prefix `arangodb:///`, or the prefix-stripped remainder splits on `/` into a
component count other than 2 or 3, or the database name (first component),
the collection name (second component), or, when present, the document id
(third component) is empty — each cause with its own message, tested in
exactly that order.  It is compared with `parseArangoDBURI`, the definition
taken from the source. -/
def specURIError (uri : List Char) : Option String :=
  if listStartsWith uri uriScheme = false then
    some "URI must start with \x22arangodb:///\x22"
  else
    let components := splitOnChar '/' (uri.drop uriScheme.length)
    if components.length ≠ 2 ∧ components.length ≠ 3 then
      some "URI must have 2 or 3 components: databaseName/collectionName[/documentId]"
    else if components.headD ['?'] = [] then
      some "Database name cannot be empty"
    else if (components.drop 1).headD ['?'] = [] then
      some "Collection name cannot be empty"
    else if (components.drop 2).any List.isEmpty then
      some "Document ID cannot be empty"
    else
      none

/-- C3.  URI rejection (raises-iff): `parseArangoDBURI` throws exactly when
the input lacks the prefix `arangodb:///`, or the prefix-stripped remainder
splits on `/` into a component count other than 2 or 3, or the database name,
collection name, or (when present) document id component is empty; each cause
produces its own specific message, the causes being checked in the order
prefix, count, database, collection, document id (the order encoded by
`specURIError`); for every other input the function returns an address
without throwing. -/
theorem parseArangoDBURI_rejection (uri : List Char) :
    (∀ m, parseArangoDBURI uri = .error m ↔ specURIError uri = some m) ∧
    ((∃ a, parseArangoDBURI uri = .ok a) ↔ specURIError uri = none) := by
  unfold parseArangoDBURI specURIError
  cases hsw : listStartsWith uri uriScheme with
  | false => simp
  | true =>
    simp only [Bool.true_eq_false, if_false]
    rcases hc : splitOnChar '/' (uri.drop uriScheme.length) with _ | ⟨a, _ | ⟨b, _ | ⟨c, rest⟩⟩⟩
    · simp
    · simp
    · by_cases ha : a = [] <;> by_cases hb : b = [] <;>
        simp [ha, hb, List.headD]
    · cases rest with
      | nil =>
        by_cases ha : a = [] <;> by_cases hb : b = [] <;> by_cases hcc : c = [] <;>
          simp [ha, hb, hcc, List.headD]
      | cons d ds =>
        simp only [List.length_cons]
        constructor
        · intro m
          constructor <;> intro h
          · simp only [if_pos (by omega : (ds.length + 1 + 1 + 1 + 1 ≠ 2 ∧
              ds.length + 1 + 1 + 1 + 1 ≠ 3))]
            simpa using h
          · simp only [if_pos (by omega : (ds.length + 1 + 1 + 1 + 1 ≠ 2 ∧
              ds.length + 1 + 1 + 1 + 1 ≠ 3))] at h
            simpa using h
        · constructor <;> intro h
          · obtain ⟨x, hx⟩ := h
            simp at hx
          · simp only [if_pos (by omega : (ds.length + 1 + 1 + 1 + 1 ≠ 2 ∧
              ds.length + 1 + 1 + 1 + 1 ≠ 3))] at h
            simp at h

end ArangoMCP

namespace ArangoMCP

theorem parse_collection_concat (d c : List Char)
    (hd : '/' ∉ d) (hc : '/' ∉ c) (hd0 : d ≠ []) (hc0 : c ≠ []) :
    parseArangoDBURI (uriScheme ++ (d ++ '/' :: c)) = .ok (.collection d c) := by
  unfold parseArangoDBURI
  simp only [listStartsWith_append, Bool.true_eq_false, if_false, List.drop_left]
  rw [splitOnChar_append '/' d c hd, splitOnChar_of_not_mem '/' c hc]
  simp [hd0, hc0]

theorem parse_document_concat (d c i : List Char)
    (hd : '/' ∉ d) (hc : '/' ∉ c) (hi : '/' ∉ i)
    (hd0 : d ≠ []) (hc0 : c ≠ []) (hi0 : i ≠ []) :
    parseArangoDBURI (uriScheme ++ (d ++ '/' :: (c ++ '/' :: i))) =
      .ok (.document d c i) := by
  unfold parseArangoDBURI
  simp only [listStartsWith_append, Bool.true_eq_false, if_false, List.drop_left]
  rw [splitOnChar_append '/' d (c ++ '/' :: i) hd, splitOnChar_append '/' c i hc,
    splitOnChar_of_not_mem '/' i hi]
  simp [hd0, hc0, hi0]

theorem parse_ok_build (u : List Char) (a : ArangoDBURI)
    (h : parseArangoDBURI u = .ok a) : buildArangoDBURI a = u := by
  unfold parseArangoDBURI at h
  cases hsw : listStartsWith u uriScheme with
  | false => rw [hsw] at h; simp at h
  | true =>
    rw [hsw] at h
    simp only [Bool.true_eq_false, if_false] at h
    have hu := listStartsWith_decompose u uriScheme hsw
    have hjoin := joinWithSep_splitOnChar '/' (u.drop uriScheme.length)
    rcases hcomp : splitOnChar '/' (u.drop uriScheme.length) with
      _ | ⟨x, _ | ⟨y, _ | ⟨z, _ | ⟨w, rest⟩⟩⟩⟩ <;>
      rw [hcomp] at h hjoin
    · simp at h
    · simp at h
    · simp only [List.cons.injEq] at h
      split_ifs at h with h1 h2
      obtain rfl : ArangoDBURI.collection x y = a := by simpa using h
      rw [buildArangoDBURI]
      rw [joinWithSep] at hjoin
      conv_rhs => rw [hu]
      simp [← hjoin, List.append_assoc, joinWithSep]
    · simp only [List.cons.injEq] at h
      split_ifs at h with h1 h2 h3
      obtain rfl : ArangoDBURI.document x y z = a := by simpa using h
      rw [buildArangoDBURI]
      rw [joinWithSep] at hjoin
      conv_rhs => rw [hu]
      simp [← hjoin, List.append_assoc, joinWithSep]
    · simp at h

/-- C2 counterexample: the claim quantifies over all strings `d`, `c` with no
`/` character, but for `d = ""` (which contains no `/`) and `c = "b"` the
parser rejects `arangodb:///` + `""` + `/` + `"b"` with the empty-database
error instead of returning the collection address. -/
theorem uriRoundTrip_counterexample :
    ('/' ∉ ([] : List Char)) ∧ ('/' ∉ "b".data) ∧
    parseArangoDBURI (uriScheme ++ (([] : List Char) ++ '/' :: "b".data)) =
      .error "Database name cannot be empty" ∧
    parseArangoDBURI (uriScheme ++ (([] : List Char) ++ '/' :: "b".data)) ≠
      .ok (.collection [] "b".data) := by
  refine ⟨by simp, by decide, rfl, ?_⟩
  decide

/-- C2 (amended: the component strings must also be non-empty, as the parser
rejects empty components).  For all non-empty `d`, `c` containing no `/`,
parsing `arangodb:///` + `d` + `/` + `c` returns the collection address
`(d, c)`, and for non-empty `d`, `c`, `i` containing no `/`, parsing
`arangodb:///` + `d` + `/` + `c` + `/` + `i` returns the document address
`(d, c, i)`. -/
theorem uriRoundTrip (d c i : List Char)
    (hd : '/' ∉ d) (hc : '/' ∉ c) (hi : '/' ∉ i)
    (hd0 : d ≠ []) (hc0 : c ≠ []) (hi0 : i ≠ []) :
    parseArangoDBURI (uriScheme ++ (d ++ '/' :: c)) = .ok (.collection d c) ∧
    parseArangoDBURI (uriScheme ++ (d ++ '/' :: (c ++ '/' :: i))) =
      .ok (.document d c i) :=
  ⟨parse_collection_concat d c hd hc hd0 hc0,
   parse_document_concat d c i hd hc hi hd0 hc0 hi0⟩

/-- Witness for C2 (amended) at `d = "mydb"`, `c = "users"`, `i = "k1"`. -/
theorem uriRoundTrip_witness :
    ('/' ∉ "mydb".data) ∧ ("mydb".data ≠ ([] : List Char)) ∧
    parseArangoDBURI (uriScheme ++ ("mydb".data ++ '/' :: "users".data)) =
      .ok (.collection "mydb".data "users".data) ∧
    parseArangoDBURI
        (uriScheme ++ ("mydb".data ++ '/' :: ("users".data ++ '/' :: "k1".data))) =
      .ok (.document "mydb".data "users".data "k1".data) :=
  ⟨by decide, by decide,
   (uriRoundTrip "mydb".data "users".data "k1".data (by decide) (by decide)
     (by decide) (by decide) (by decide) (by decide)).1,
   (uriRoundTrip "mydb".data "users".data "k1".data (by decide) (by decide)
     (by decide) (by decide) (by decide) (by decide)).2⟩

/-- C10.  Reverse round-trip and injectivity: for every URI string `u` on
which `parseArangoDBURI` succeeds with address `a`, concatenating the scheme
with the returned components joined by `/` (`buildArangoDBURI a`) reproduces
`u` exactly, and any other accepted input yielding the same address equals
`u`, so the parser is injective on the inputs it accepts. -/
theorem parseArangoDBURI_reverse_roundTrip (u : List Char) (a : ArangoDBURI)
    (h : parseArangoDBURI u = .ok a) :
    buildArangoDBURI a = u ∧ ∀ v, parseArangoDBURI v = .ok a → v = u :=
  ⟨parse_ok_build u a h,
   fun v hv => (parse_ok_build v a hv).symm.trans (parse_ok_build u a h)⟩

/-- Witness for C10 at the accepted input `arangodb:///mydb/users/k1`. -/
theorem parseArangoDBURI_reverse_roundTrip_witness :
    parseArangoDBURI "arangodb:///mydb/users/k1".data =
      .ok (.document "mydb".data "users".data "k1".data) ∧
    buildArangoDBURI (.document "mydb".data "users".data "k1".data) =
      "arangodb:///mydb/users/k1".data :=
  ⟨rfl, (parseArangoDBURI_reverse_roundTrip "arangodb:///mydb/users/k1".data
    (.document "mydb".data "users".data "k1".data) rfl).1⟩

/-- The process-wide startup configuration fixed by argument parsing
(src/index.ts lines 50-64): the `--enable-write` flag, the base database
URL, and the optional credential pair. -/
structure StartupConfig where
  enableWrite : Bool
  databaseUrl : List Char
  auth : Option (List Char × List Char)
deriving DecidableEq

/-- An arangojs `Database` handle as constructed by `new Database({...})`
(src/index.ts lines 66-69 and 118-122).  The `ref` field models JavaScript
object identity: each `new Database` allocation receives a fresh `ref`, so
two handles are the same instance exactly when their `ref`s agree. -/
structure Database where
  ref : Nat
  url : List Char
  databaseName : List Char
  auth : Option (List Char × List Char)
deriving DecidableEq

/-- The mutable state the program threads through connection lookups: the
`databaseConnections` map (src/index.ts line 111), as an association list
looked up by database name, plus the allocation counter that hands out
object identities.  `Map.set` is only ever reached for a key that is absent
(the `has` branch returns first), so prepending the new entry has the same
lookup semantics as `Map.set`. -/
structure ServerState where
  databaseConnections : List (List Char × Database)
  nextRef : Nat
deriving DecidableEq

/-- Embedding of `getOrCreateDatabaseConnection` (src/index.ts lines
113-126): return the cached handle if the name is present, otherwise
allocate a new handle bound to the startup URL and credentials, store it
under the name, and return it. -/
def getOrCreateDatabaseConnection (cfg : StartupConfig) (databaseName : List Char)
    (s : ServerState) : Database × ServerState :=
  match s.databaseConnections.lookup databaseName with
  | some dbConnector => (dbConnector, s)
  | none =>
    let dbConnector : Database :=
      { ref := s.nextRef
        url := cfg.databaseUrl
        databaseName := databaseName
        auth := cfg.auth }
    (dbConnector,
     { databaseConnections := (databaseName, dbConnector) :: s.databaseConnections
       nextRef := s.nextRef + 1 })

theorem lookup_cons_self (n : List Char) (d : Database) (l : List (List Char × Database)) :
    ((n, d) :: l).lookup n = some d := by
  simp [List.lookup]

/-- C1.  Cache identity and idempotence: for every non-empty database name
`n`, calling `getOrCreateDatabaseConnection n` twice returns the same
connection handle instance both times (the same `Database` value, in
particular the same `ref`, i.e. referential identity), and the second call
leaves the cache state unchanged. -/
theorem getOrCreateDatabaseConnection_idempotent (cfg : StartupConfig)
    (n : List Char) (s s₁ : ServerState) (d₁ : Database) (hn : n ≠ [])
    (h : getOrCreateDatabaseConnection cfg n s = (d₁, s₁)) :
    getOrCreateDatabaseConnection cfg n s₁ = (d₁, s₁) := by
  unfold getOrCreateDatabaseConnection at h ⊢
  cases hl : s.databaseConnections.lookup n with
  | some d =>
    rw [hl] at h
    obtain ⟨rfl, rfl⟩ := Prod.mk.injEq .. ▸ h
    rw [hl]
  | none =>
    rw [hl] at h
    simp only [Prod.mk.injEq] at h
    obtain ⟨hd, hs⟩ := h
    rw [← hs, ← hd]
    simp [lookup_cons_self]

/-- Witness for C1: a fresh state, one call creates the handle, the second
call returns it unchanged. -/
theorem getOrCreateDatabaseConnection_idempotent_witness :
    ("mydb".data ≠ ([] : List Char)) ∧
    getOrCreateDatabaseConnection ⟨false, "http://localhost:8529".data, none⟩
        "mydb".data
        ⟨[("mydb".data, ⟨0, "http://localhost:8529".data, "mydb".data, none⟩)], 1⟩ =
      (⟨0, "http://localhost:8529".data, "mydb".data, none⟩,
       ⟨[("mydb".data, ⟨0, "http://localhost:8529".data, "mydb".data, none⟩)], 1⟩) :=
  ⟨by decide,
   getOrCreateDatabaseConnection_idempotent ⟨false, "http://localhost:8529".data, none⟩
     "mydb".data ⟨[], 0⟩ _ _ (by decide) (by decide)⟩

/-- A run of the process, seen through the connection cache: every handler
that touches `databaseConnections` does so only through
`getOrCreateDatabaseConnection` (src/index.ts lines 246, 274, 321, 361, 385,
430; the map is referenced nowhere else), so a sequence of operations acts
on the cache as a sequence of lookups by name. -/
def runLookups (cfg : StartupConfig) (names : List (List Char))
    (s : ServerState) : ServerState :=
  names.foldl (fun st m => (getOrCreateDatabaseConnection cfg m st).2) s

theorem lookup_preserved (cfg : StartupConfig) (m n : List Char) (d : Database)
    (s : ServerState) (h : s.databaseConnections.lookup n = some d) :
    ((getOrCreateDatabaseConnection cfg m s).2).databaseConnections.lookup n = some d := by
  unfold getOrCreateDatabaseConnection
  cases hl : s.databaseConnections.lookup m with
  | some d2 => exact h
  | none =>
    simp only [List.lookup]
    have hnm : (n == m) = false := by
      rcases hb : n == m with _ | _
      · rfl
      · rw [eq_of_beq hb, hl] at h; exact Option.noConfusion h
    rw [hnm]
    exact h

/-- C5.  Cache persistence: the connection cache only grows — no operation
removes, replaces or refreshes an entry — so once a handle is stored for a
name, every later lookup of that name, after any sequence of further
operations, still finds that same handle, and `getOrCreateDatabaseConnection`
keeps returning it. -/
theorem databaseConnections_persistent (cfg : StartupConfig)
    (names : List (List Char)) (n : List Char) (d : Database) (s : ServerState)
    (h : s.databaseConnections.lookup n = some d) :
    ((runLookups cfg names s).databaseConnections.lookup n = some d) ∧
    (getOrCreateDatabaseConnection cfg n (runLookups cfg names s)).1 = d := by
  have hmain : (runLookups cfg names s).databaseConnections.lookup n = some d := by
    induction names generalizing s with
    | nil => exact h
    | cons m ms ih =>
      exact ih ((getOrCreateDatabaseConnection cfg m s).2) (lookup_preserved cfg m n d s h)
  refine ⟨hmain, ?_⟩
  unfold getOrCreateDatabaseConnection
  rw [hmain]

/-- Witness for C5: a handle stored for `mydb` survives lookups of other
and equal names. -/
theorem databaseConnections_persistent_witness :
    ([("mydb".data, (⟨0, "u".data, "mydb".data, none⟩ : Database))].lookup "mydb".data =
      some ⟨0, "u".data, "mydb".data, none⟩) ∧
    ((runLookups ⟨false, "u".data, none⟩ ["other".data, "mydb".data]
        ⟨[("mydb".data, ⟨0, "u".data, "mydb".data, none⟩)], 1⟩).databaseConnections.lookup
        "mydb".data = some ⟨0, "u".data, "mydb".data, none⟩) ∧
    (getOrCreateDatabaseConnection ⟨false, "u".data, none⟩ "mydb".data
      (runLookups ⟨false, "u".data, none⟩ ["other".data, "mydb".data]
        ⟨[("mydb".data, ⟨0, "u".data, "mydb".data, none⟩)], 1⟩)).1 =
      ⟨0, "u".data, "mydb".data, none⟩ :=
  ⟨by decide,
   (databaseConnections_persistent ⟨false, "u".data, none⟩
     ["other".data, "mydb".data] "mydb".data _ _ (by decide)).1,
   (databaseConnections_persistent ⟨false, "u".data, none⟩
     ["other".data, "mydb".data] "mydb".data _ _ (by decide)).2⟩

/-- Model of `arg.startsWith("--")`, the test that routes a startup argument
to the flag set rather than the positional list (src/index.ts line 35). -/
def isFlagToken (arg : List Char) : Bool :=
  listStartsWith arg "--".data

/-- The `KNOWN_FLAGS` set (src/index.ts line 28). -/
def knownFlags : List (List Char) := ["--enable-write".data, "--help".data]

/-- Embedding of the argument loop (src/index.ts lines 30-44): each `--`
argument must be a known flag and is collected into the flag set, every
other argument is appended to the positional list; an unknown flag makes
the process print usage and exit, embedded as `none`. -/
def collectArgs : List (List Char) → Option (List (List Char) × List (List Char))
  | [] => some ([], [])
  | arg :: rest =>
    if isFlagToken arg then
      if arg ∈ knownFlags then
        (collectArgs rest).map (fun fp => (arg :: fp.1, fp.2))
      else
        none
    else
      (collectArgs rest).map (fun fp => (fp.1, arg :: fp.2))

/-- Embedding of the startup sequence after the argument loop (src/index.ts
lines 46-64): exit on `--help` (exit code 0) or on a missing URL (exit code
1), both embedded as `none`; otherwise read `enableWrite` from the flag set,
the URL from the first positional, and build the credential pair only when
both the username (second positional) and the password (third positional)
are present and truthy — the empty string is falsy in JavaScript, so an
empty component also yields no credentials. -/
def parseStartup (rawArgs : List (List Char)) : Option StartupConfig :=
  match collectArgs rawArgs with
  | none => none
  | some (flags, positionals) =>
    if "--help".data ∈ flags then
      none
    else
      let enableWrite : Bool := decide ("--enable-write".data ∈ flags)
      match positionals with
      | [] => none
      | databaseUrl :: rest =>
        let username := rest.head?
        let password := (rest.drop 1).head?
        let auth : Option (List Char × List Char) :=
          match username, password with
          | some u, some p => if u ≠ [] ∧ p ≠ [] then some (u, p) else none
          | _, _ => none
        some { enableWrite := enableWrite, databaseUrl := databaseUrl, auth := auth }

/-- The names of the tools the server registers, in registration order
(src/index.ts lines 349-442): `readQuery` always, `readWriteQuery` only
inside `if (enableWrite)`, then `listDatabases` and `listCollections`. -/
def registeredTools (enableWrite : Bool) : List String :=
  ["readQuery"] ++ (if enableWrite then ["readWriteQuery"] else []) ++
    ["listDatabases", "listCollections"]

theorem collectArgs_parts (rawArgs : List (List Char))
    (flags positionals : List (List Char))
    (h : collectArgs rawArgs = some (flags, positionals)) :
    flags = rawArgs.filter isFlagToken ∧
    positionals = rawArgs.filter (fun a => !(isFlagToken a)) ∧
    ∀ a ∈ flags, a ∈ knownFlags := by
  induction rawArgs generalizing flags positionals with
  | nil =>
    simp only [collectArgs, Option.some.injEq, Prod.mk.injEq] at h
    obtain ⟨rfl, rfl⟩ := h
    simp
  | cons arg rest ih =>
    rw [collectArgs] at h
    by_cases hf : isFlagToken arg
    · rw [if_pos hf] at h
      by_cases hk : arg ∈ knownFlags
      · rw [if_pos hk] at h
        cases hr : collectArgs rest with
        | none => rw [hr] at h; exact Option.noConfusion h
        | some fp =>
          rw [hr] at h
          simp only [Option.map_some', Option.some.injEq, Prod.mk.injEq] at h
          obtain ⟨hfl, hpo⟩ := h
          obtain ⟨h1, h2, h3⟩ := ih fp.1 fp.2 (by rw [hr])
          subst hfl
          subst hpo
          refine ⟨by simp [List.filter_cons, hf, h1], by simp [List.filter_cons, hf, h2], ?_⟩
          intro a ha
          rcases List.mem_cons.1 ha with rfl | ha2
          · exact hk
          · exact h3 a ha2
      · rw [if_neg hk] at h
        exact Option.noConfusion h
    · rw [if_neg hf] at h
      cases hr : collectArgs rest with
      | none => rw [hr] at h; exact Option.noConfusion h
      | some fp =>
        rw [hr] at h
        simp only [Option.map_some', Option.some.injEq, Prod.mk.injEq] at h
        obtain ⟨hfl, hpo⟩ := h
        obtain ⟨h1, h2, h3⟩ := ih fp.1 fp.2 (by rw [hr])
        subst hfl
        subst hpo
        have hf2 : isFlagToken arg = false := by simpa using hf
        exact ⟨by simp [List.filter_cons, hf2, h1], by simp [List.filter_cons, hf2, h2], h3⟩

end ArangoMCP

namespace ArangoMCP

theorem mem_registeredTools_readWriteQuery (b : Bool) :
    ("readWriteQuery" : String) ∈ registeredTools b ↔ b = true := by
  cases b <;> simp [registeredTools]

theorem mem_registeredTools_readQuery (b : Bool) :
    ("readQuery" : String) ∈ registeredTools b := by
  cases b <;> simp [registeredTools]

/-- C4.  Write-gate: for every successful startup, the `readWriteQuery` tool
is registered exactly when the `--enable-write` flag was given among the
startup arguments, and the `readQuery` tool is registered in both cases. -/
theorem writeGate (rawArgs : List (List Char)) (cfg : StartupConfig)
    (h : parseStartup rawArgs = some cfg) :
    (("readWriteQuery" : String) ∈ registeredTools cfg.enableWrite ↔
      "--enable-write".data ∈ rawArgs) ∧
    ("readQuery" : String) ∈ registeredTools cfg.enableWrite := by
  refine ⟨?_, mem_registeredTools_readQuery cfg.enableWrite⟩
  unfold parseStartup at h
  cases hca : collectArgs rawArgs with
  | none => rw [hca] at h; exact Option.noConfusion h
  | some fp =>
    obtain ⟨flags, positionals⟩ := fp
    rw [hca] at h
    simp only [Option.some.injEq] at h
    obtain ⟨hfl, hpo, hknown⟩ := collectArgs_parts rawArgs flags positionals hca
    by_cases hh : "--help".data ∈ flags
    · rw [if_pos hh] at h; exact Option.noConfusion h
    · rw [if_neg hh] at h
      cases hpos : positionals with
      | nil => rw [hpos] at h; exact Option.noConfusion h
      | cons url rest =>
        rw [hpos] at h
        simp only [Option.some.injEq] at h
        have hew : cfg.enableWrite = decide ("--enable-write".data ∈ flags) := by
          rw [← h]
        have hiff : "--enable-write".data ∈ flags ↔ "--enable-write".data ∈ rawArgs := by
          subst hfl
          simp only [List.mem_filter, and_iff_left_iff_imp]
          intro _
          decide
        rw [mem_registeredTools_readWriteQuery, hew, decide_eq_true_eq]
        exact hiff

/-- Witness for C4 at the argument lists `--enable-write http://localhost:8529`
and `http://localhost:8529`. -/
theorem writeGate_witness :
    (parseStartup ["--enable-write".data, "http://localhost:8529".data] =
      some ⟨true, "http://localhost:8529".data, none⟩) ∧
    ((("readWriteQuery" : String) ∈ registeredTools true ↔
       "--enable-write".data ∈ ["--enable-write".data, "http://localhost:8529".data]) ∧
     ("readQuery" : String) ∈ registeredTools true) :=
  ⟨by decide,
   writeGate ["--enable-write".data, "http://localhost:8529".data]
     ⟨true, "http://localhost:8529".data, none⟩ (by decide)⟩

end ArangoMCP

namespace ArangoMCP

theorem collectArgs_append_known (fs rest : List (List Char))
    (hf : ∀ a ∈ fs, isFlagToken a = true ∧ a ∈ knownFlags) :
    collectArgs (fs ++ rest) = (collectArgs rest).map (fun fp => (fs ++ fp.1, fp.2)) := by
  induction fs with
  | nil =>
    simp only [List.nil_append]
    cases collectArgs rest <;> rfl
  | cons a as ih =>
    have ha := hf a (List.mem_cons_self a as)
    have has : ∀ x ∈ as, isFlagToken x = true ∧ x ∈ knownFlags :=
      fun x hx => hf x (List.mem_cons_of_mem a hx)
    rw [List.cons_append, collectArgs, if_pos ha.1, if_pos ha.2, ih has]
    cases collectArgs rest <;> rfl

/-- C6.  Credential pairing: for every startup argument list that supplies a
username positional but no password positional (exactly two positionals:
URL and username), the resulting configuration carries no credentials, and
it is identical to the configuration produced by a startup with the same
flags and neither username nor password. -/
theorem credentialPairing (rawArgs : List (List Char)) (cfg : StartupConfig)
    (h : parseStartup rawArgs = some cfg)
    (h2 : (rawArgs.filter (fun a => !(isFlagToken a))).length = 2) :
    cfg.auth = none ∧
    parseStartup (rawArgs.filter isFlagToken ++ [cfg.databaseUrl]) = some cfg := by
  unfold parseStartup at h
  cases hca : collectArgs rawArgs with
  | none => rw [hca] at h; exact Option.noConfusion h
  | some fp =>
    obtain ⟨flags, positionals⟩ := fp
    rw [hca] at h
    simp only [Option.some.injEq] at h
    obtain ⟨hfl, hpo, hknown⟩ := collectArgs_parts rawArgs flags positionals hca
    by_cases hh : "--help".data ∈ flags
    · rw [if_pos hh] at h; exact Option.noConfusion h
    · rw [if_neg hh] at h
      rw [← hpo] at h2
      obtain ⟨url, un, hpos⟩ : ∃ url un, positionals = [url, un] := by
        rcases positionals with _ | ⟨x, _ | ⟨y, _ | ⟨z, t⟩⟩⟩ <;> simp at h2
        exact ⟨x, y, rfl⟩
      rw [hpos] at h
      simp only [Option.some.injEq, List.head?_cons, List.drop_succ_cons, List.drop_nil,
        List.head?_nil] at h
      have hauth : cfg.auth = none := by rw [← h]
      have hurl : cfg.databaseUrl = url := by rw [← h]
      refine ⟨hauth, ?_⟩
      have hflags : ∀ a ∈ flags, isFlagToken a = true ∧ a ∈ knownFlags := by
        intro a ha
        refine ⟨?_, hknown a ha⟩
        rw [hfl] at ha
        exact (List.mem_filter.mp ha).2
      have hnf : isFlagToken url = false := by
        have : url ∈ positionals := by rw [hpos]; exact List.mem_cons_self url [un]
        rw [hpo] at this
        simpa using (List.mem_filter.mp this).2
      unfold parseStartup
      rw [hurl, ← hfl, collectArgs_append_known flags [url] hflags]
      rw [show collectArgs [url] = some ([], [url]) by
        rw [collectArgs, if_neg (by simp [hnf])]; rfl]
      simp only [Option.map_some', List.append_nil, Option.some.injEq, if_neg hh,
        List.head?_nil, List.drop_nil]
      rw [← h]

/-- Witness for C6 at `--enable-write http://localhost:8529 root` (a username
and no password). -/
theorem credentialPairing_witness :
    (parseStartup ["--enable-write".data, "http://localhost:8529".data, "root".data] =
      some ⟨true, "http://localhost:8529".data, none⟩) ∧
    ((["--enable-write".data, "http://localhost:8529".data, "root".data].filter
        (fun a => !(isFlagToken a))).length = 2) ∧
    ((⟨true, "http://localhost:8529".data, none⟩ : StartupConfig).auth = none ∧
     parseStartup (["--enable-write".data, "http://localhost:8529".data,
         "root".data].filter isFlagToken ++
       [(⟨true, "http://localhost:8529".data, none⟩ : StartupConfig).databaseUrl]) =
       some ⟨true, "http://localhost:8529".data, none⟩) :=
  ⟨by decide, by decide, credentialPairing _ _ (by decide) (by decide)⟩

/-- C9.  Empty-string credentials are treated as absent: the both-present
check is a JavaScript truthiness test, so whenever the username or the
password positional is the empty string the configuration carries no
credentials, exactly as when both are omitted. -/
theorem emptyStringCredential (url u p : List Char)
    (hurl : isFlagToken url = false) (hu : isFlagToken u = false)
    (hp : isFlagToken p = false) (h : u = [] ∨ p = []) :
    parseStartup [url, u, p] = some ⟨false, url, none⟩ ∧
    parseStartup [url] = some ⟨false, url, none⟩ := by
  rcases h with rfl | rfl
  · constructor <;> simp [parseStartup, collectArgs, hurl, hu, hp]
  · constructor <;> simp [parseStartup, collectArgs, hurl, hu, hp]

/-- Witness for C9 at URL `http://localhost:8529`, username `root`, empty
password. -/
theorem emptyStringCredential_witness :
    (isFlagToken "root".data = false) ∧ (("" : String).data = [] ∨ False) ∧
    parseStartup ["http://localhost:8529".data, "root".data, "".data] =
      some ⟨false, "http://localhost:8529".data, none⟩ ∧
    parseStartup ["http://localhost:8529".data] =
      some ⟨false, "http://localhost:8529".data, none⟩ :=
  ⟨by decide, Or.inl rfl,
   (emptyStringCredential "http://localhost:8529".data "root".data "".data
     (by decide) (by decide) (by decide) (Or.inr rfl)).1,
   (emptyStringCredential "http://localhost:8529".data "root".data "".data
     (by decide) (by decide) (by decide) (Or.inr rfl)).2⟩

end ArangoMCP

namespace ArangoMCP

/-- The row shape `{_id, name}` the collection query returns and the zod
`collectionSchema` validates (src/index.ts lines 101-108). -/
structure CollectionType where
  idField : List Char
  name : List Char
deriving DecidableEq

/-- Meaning of the AQL text in `getCollections` (src/index.ts lines 129-136),
executed by the database server on the database's collection list (pairs of
`_id` and `name`): `FOR collection IN COLLECTIONS() FILTER
!STARTS_WITH(collection.name, "_") RETURN {_id: collection._id, name:
collection.name}`. -/
def collectionsQuery (dbCollections : List (List Char × List Char)) : List CollectionType :=
  (dbCollections.filter (fun collection => !(listStartsWith collection.2 "_".data))).map
    (fun collection => { idField := collection.1, name := collection.2 })

/-- The zod strict parse of one result row (src/index.ts line 142): in the
typed model every row produced by `collectionsQuery` already has exactly the
shape `{_id, name}`, so validation is the identity. -/
def collectionSchemaParse (collection : CollectionType) : CollectionType := collection

/-- Embedding of `getCollections` (src/index.ts lines 128-146): run the
filtering query, then push each row through the schema parse. -/
def getCollections (dbCollections : List (List Char × List Char)) : List CollectionType :=
  (collectionsQuery dbCollections).map collectionSchemaParse

/-- The `{name}` objects the `listCollections` tool returns. -/
structure NameOnly where
  name : List Char
deriving DecidableEq

/-- Embedding of the `listCollections` tool handler (src/index.ts lines
427-441): fetch the collections of the requested database and keep only the
`name` field of each. -/
def listCollectionsTool (dbCollections : List (List Char × List Char)) : List NameOnly :=
  (getCollections dbCollections).map (fun collection => { name := collection.name })

/-- C8.  Underscore filtering: `listCollections` returns exactly the
collections of the database whose names do not start with `_`, each as an
object with only a name field; in particular a database holding `users` and
`_internal` yields only `[{name: "users"}]`. -/
theorem listCollectionsTool_underscore (dbCollections : List (List Char × List Char)) :
    listCollectionsTool dbCollections =
      (dbCollections.filter (fun collection =>
        !(listStartsWith collection.2 "_".data))).map (fun collection => ⟨collection.2⟩) ∧
    listCollectionsTool [("mydb/100".data, "users".data), ("mydb/101".data, "_internal".data)] =
      [⟨"users".data⟩] := by
  constructor
  · simp [listCollectionsTool, getCollections, collectionsQuery, collectionSchemaParse]
  · decide

/-- One entry of the resource list returned by the collection
`ResourceTemplate` list callback (src/index.ts lines 252-259). -/
structure ResourceEntry where
  uri : List Char
  mimeType : List Char
  name : List Char
  description : List Char
deriving DecidableEq

/-- The resource object built for one collection of one database
(src/index.ts lines 253-258). -/
def collectionResource (databaseName collectionName : List Char) : ResourceEntry :=
  { uri := uriScheme ++ databaseName ++ '/' :: collectionName
    mimeType := "application/json".data
    name := databaseName ++ '/' :: collectionName
    description := "Collection \x22".data ++ collectionName ++
      "\x22 in database \x22".data ++ databaseName ++ "\x22".data }

/-- Model of `Promise.all(list.map f)` over fallible asynchronous calls: the
gather succeeds with all results exactly when every call succeeds, and
rejects as a whole as soon as any call fails — no partial list is ever
produced. -/
def gatherMap {α β ε : Type} (f : α → Except ε β) : List α → Except ε (List β)
  | [] => .ok []
  | a :: as =>
    match f a, gatherMap f as with
    | .error e, _ => .error e
    | .ok _, .error e => .error e
    | .ok b, .ok bs => .ok (b :: bs)

/-- Embedding of the collection resource list callback (src/index.ts lines
238-262): list all databases, drop `_system`, fetch the collections of every
remaining database through one concurrent gather (`Promise.all`), and
flatten each database's collections into resource entries.
`fetchCollections` is the oracle for the I/O call `getCollections(
getOrCreateDatabaseConnection(name))`, which may fail per database. -/
def listCollectionResources {ε : Type} (allDatabases : List (List Char))
    (fetchCollections : List Char → Except ε (List CollectionType)) :
    Except ε (List ResourceEntry) :=
  match gatherMap (fun databaseName =>
      (fetchCollections databaseName).map
        (fun collections => (databaseName, collections)))
      (allDatabases.filter (fun d => !(d == "_system".data))) with
  | .error e => .error e
  | .ok collectionsPerDb =>
    .ok (collectionsPerDb.flatMap (fun dc =>
      dc.2.map (fun collection => collectionResource dc.1 collection.name)))

theorem gatherMap_error_iff {α β ε : Type} (f : α → Except ε β) (l : List α) :
    (∃ e, gatherMap f l = .error e) ↔ ∃ a ∈ l, ∃ e, f a = .error e := by
  induction l with
  | nil => simp [gatherMap]
  | cons a as ih =>
    rw [gatherMap]
    cases hfa : f a with
    | error e => simp [hfa]
    | ok b =>
      cases hga : gatherMap f as with
      | error e =>
        simp only [List.mem_cons]
        constructor
        · intro _
          obtain ⟨x, hx, e2, he⟩ := ih.mp ⟨e, hga⟩
          exact ⟨x, Or.inr hx, e2, he⟩
        · intro _
          exact ⟨e, rfl⟩
      | ok bs =>
        simp only [List.mem_cons]
        constructor
        · rintro ⟨e, he⟩
          exact Except.noConfusion he
        · rintro ⟨x, hx | hx, e, he⟩
          · rw [hx] at he; rw [hfa] at he; exact Except.noConfusion he
          · exact absurd (ih.mpr ⟨x, hx, e, he⟩) (by simp [hga])

end ArangoMCP

namespace ArangoMCP

/-- C7.  All-or-nothing multi-database listing: the collection resource
listing, which gathers the collections of every non-`_system` database with
one unconditional concurrent gather, fails as a whole exactly when fetching
collections for at least one of those databases fails; whenever it returns a
result, every non-`_system` database was fetched successfully, so no failing
database is ever silently skipped. -/
theorem listCollectionResources_allOrNothing {ε : Type} (allDatabases : List (List Char))
    (fetchCollections : List Char → Except ε (List CollectionType)) :
    ((∃ e, listCollectionResources allDatabases fetchCollections = .error e) ↔
      ∃ d ∈ allDatabases.filter (fun d => !(d == "_system".data)),
        ∃ e, fetchCollections d = .error e) ∧
    (∀ rs, listCollectionResources allDatabases fetchCollections = .ok rs →
      ∀ d ∈ allDatabases.filter (fun d => !(d == "_system".data)),
        ∃ collections, fetchCollections d = .ok collections) := by
  have hg : ∀ d, (∃ e, ((fetchCollections d).map
      (fun collections => (d, collections))) = .error e) ↔
      (∃ e, fetchCollections d = .error e) := by
    intro d
    cases hfd : fetchCollections d <;> simp [Except.map]
  cases hga : gatherMap (fun databaseName => (fetchCollections databaseName).map
      (fun collections => (databaseName, collections)))
      (allDatabases.filter (fun d => !(d == "_system".data))) with
  | error e =>
    have hl : listCollectionResources allDatabases fetchCollections = .error e := by
      unfold listCollectionResources; rw [hga]
    constructor
    · constructor
      · intro _
        obtain ⟨d, hd, e2, he⟩ := (gatherMap_error_iff _ _).mp ⟨e, hga⟩
        exact ⟨d, hd, (hg d).mp ⟨e2, he⟩⟩
      · intro _
        exact ⟨e, hl⟩
    · intro rs hrs
      rw [hl] at hrs
      exact Except.noConfusion hrs
  | ok pairs =>
    have hl : listCollectionResources allDatabases fetchCollections =
        .ok (pairs.flatMap (fun dc => dc.2.map (fun collection =>
          collectionResource dc.1 collection.name))) := by
      unfold listCollectionResources; rw [hga]
    have hnofail : ∀ d ∈ allDatabases.filter (fun d => !(d == "_system".data)),
        ∃ collections, fetchCollections d = .ok collections := by
      intro d hd
      cases hfd : fetchCollections d with
      | ok collections => exact ⟨collections, rfl⟩
      | error e =>
        obtain ⟨e2, he2⟩ := (hg d).mpr ⟨e, hfd⟩
        obtain ⟨e3, he3⟩ := (gatherMap_error_iff
          (fun databaseName => (fetchCollections databaseName).map
            (fun collections => (databaseName, collections))) _).mpr ⟨d, hd, e2, he2⟩
        rw [hga] at he3
        exact Except.noConfusion he3
    constructor
    · constructor
      · rintro ⟨e, he⟩
        rw [hl] at he
        exact Except.noConfusion he
      · rintro ⟨d, hd, e, he⟩
        obtain ⟨collections, hc⟩ := hnofail d hd
        rw [hc] at he
        exact Except.noConfusion he
    · intro rs _
      exact hnofail

end ArangoMCP
